import Mathlib

/-!
Verification development for the `aidev` workflow engine
(`src/aidev/workflow.py`): issue classification, assistant resolution,
workflow catalog loading/merging, run-manifest creation and execution,
and incremental manifest updates, shallowly embedded in Lean.

Python regular expressions are embedded as specialized matchers with
leftmost/greedy semantics; `[A-Z]` and `\d` are modelled as the ASCII
classes (`Char.isUpper`, `Char.isDigit`).  JSON files are modelled as
their parsed values (the serialize/parse round trip of the `json`
library is taken as identity), and the filesystem as an association
list from paths to stored manifests.  Wall-clock readings, environment
lookup, prompt-file lookup and binary-availability probes are passed in
as explicit parameters.
-/

namespace Aidev

/-- Substring containment, embedding Python's `needle in text`. -/
def containsSub (needle : List Char) : List Char → Bool
  | [] => needle.isEmpty
  | c :: rest => needle.isPrefixOf (c :: rest) || containsSub needle rest

/-- Consume a literal prefix, returning the remainder on success. -/
def dropLit (lit : List Char) (cs : List Char) : Option (List Char) :=
  if lit.isPrefixOf cs then some (cs.drop lit.length) else none

/-- Embed a regex fragment `[^stop]+stop`: a nonempty maximal run of
characters other than `stop`, followed by the literal `stop`.  Returns
the run and the remainder after `stop`.  (Since `[^stop]` cannot match
`stop`, greedy matching with backtracking is equivalent to taking the
maximal run and requiring `stop` right after it.) -/
def segThen (stop : Char) (cs : List Char) : Option (List Char × List Char) :=
  let seg := cs.takeWhile (fun c => c != stop)
  if seg.isEmpty then none
  else
    match cs.drop seg.length with
    | c :: rest => if c == stop then some (seg, rest) else none
    | [] => none

/-- A nonempty maximal digit run (`\d+` at the end of a pattern). -/
def digitRun (cs : List Char) : Option (List Char) :=
  let ds := cs.takeWhile Char.isDigit
  if ds.isEmpty then none else some ds

/-- Try a matcher at every start position, leftmost match first:
the embedding of `re.search` given a matcher for one start position. -/
def searchAt {α : Type} (f : List Char → Option α) : List Char → Option α
  | [] => f []
  | c :: rest =>
    match f (c :: rest) with
    | some r => some r
    | none => searchAt f rest

/-- Match `([A-Z]+-\d+)` anchored at the head of `cs`: a nonempty
maximal uppercase run, then `-`, then a nonempty maximal digit run.
(`[A-Z]+` greedy cannot backtrack into a successful match here, since
every shorter run is followed by an uppercase letter, not `-`.) -/
def jiraMatchAt (cs : List Char) : Option (List Char) :=
  let ups := cs.takeWhile Char.isUpper
  let rest := cs.drop ups.length
  if ups.isEmpty then none
  else if rest.head? = some '-' then
    (digitRun rest.tail).map (fun ds => ups ++ '-' :: ds)
  else none

/-- `re.search(r'([A-Z]+-\d+)', text)`: leftmost jira-key match. -/
def jiraSearch (cs : List Char) : Option (List Char) :=
  searchAt jiraMatchAt cs

/-- Match `github\.com/([^/]+)/([^/]+)/(issues|pull)/(\d+)` anchored at
the head; returns `(owner, repo, digits)`. -/
def githubUrlMatchAt (cs : List Char) : Option (List Char × List Char × List Char) := do
  let rest ← dropLit "github.com/".data cs
  let (owner, rest) ← segThen '/' rest
  let (repo, rest) ← segThen '/' rest
  let rest ←
    match dropLit "issues/".data rest with
    | some r => some r
    | none => dropLit "pull/".data rest
  let ds ← digitRun rest
  pure (owner, repo, ds)

/-- Match `([^/]+)/([^#]+)#(\d+)` anchored at the start (`re.match`):
first segment up to the first `/`, second segment up to the first `#`
after it, then at least one digit. -/
def githubShorthandMatch (cs : List Char) : Bool :=
  match segThen '/' cs with
  | none => false
  | some (_, rest) =>
    match segThen '#' rest with
    | none => false
    | some (_, rest2) => (digitRun rest2).isSome

/-- Match the gitlab.com URL pattern anchored at the head: literal
`gitlab.com` and a slash, owner segment, repo segment, the literal dash
path segment, then `issues` or `merge_requests`, a slash and digits;
returns `(owner, repo, digits)`. -/
def gitlabUrlMatchAt (cs : List Char) : Option (List Char × List Char × List Char) := do
  let rest ← dropLit "gitlab.com/".data cs
  let (owner, rest) ← segThen '/' rest
  let (repo, rest) ← segThen '/' rest
  let rest ← dropLit "-/".data rest
  let rest ←
    match dropLit "issues/".data rest with
    | some r => some r
    | none => dropLit "merge_requests/".data rest
  let ds ← digitRun rest
  pure (owner, repo, ds)

/-- Match the self-hosted gitlab URL pattern anchored at the head:
literal `gitlab.`, a host remainder segment (uncaptured), owner and repo
segments, the literal dash path segment, then `issues` or
`merge_requests`, a slash and digits. -/
def gitlabSelfHostedMatchAt (cs : List Char) : Option (List Char × List Char × List Char) := do
  let rest ← dropLit "gitlab.".data cs
  let (_, rest) ← segThen '/' rest
  let (owner, rest) ← segThen '/' rest
  let (repo, rest) ← segThen '/' rest
  let rest ← dropLit "-/".data rest
  let rest ←
    match dropLit "issues/".data rest with
    | some r => some r
    | none => dropLit "merge_requests/".data rest
  let ds ← digitRun rest
  pure (owner, repo, ds)

/-- Match `([^/]+)/([^!#]+)[!#](\d+)` anchored at the start. -/
def gitlabShorthandMatch (cs : List Char) : Bool :=
  match segThen '/' cs with
  | none => false
  | some (_, rest) =>
    let seg2 := rest.takeWhile (fun c => c != '!' && c != '#')
    if seg2.isEmpty then false
    else
      match rest.drop seg2.length with
      | c :: rest2 => (c == '!' || c == '#') && (digitRun rest2).isSome
      | [] => false

/-- The classification record returned by `detect_issue_context`. -/
structure IssueContext where
  is_issue : Bool
  issue_type : Option String
  issue_id : Option String
  detected_pattern : Option String
deriving DecidableEq, Repr

/-- The all-false / all-null classification. -/
def noIssue : IssueContext := ⟨false, none, none, none⟩

/-- Embedding of `detect_issue_context` (workflow.py): classify a text
blob into jira / github / gitlab references, first match wins. -/
def detect_issue_context (text : Option String) : IssueContext :=
  match text with
  | none => noIssue
  | some s =>
    if s = "" then noIssue
    else
      let cs := s.data
      if containsSub "atlassian.net".data cs then
        ⟨true, some "jira", none, some "atlassian_url"⟩
      else
        match jiraSearch cs with
        | some m => ⟨true, some "jira", some (String.mk m), some "jira_key"⟩
        | none =>
          match searchAt githubUrlMatchAt cs with
          | some (o, r, n) =>
            ⟨true, some "github",
              some (String.mk o ++ "/" ++ String.mk r ++ "#" ++ String.mk n),
              some "github_url"⟩
          | none =>
            if githubShorthandMatch cs then
              ⟨true, some "github", some s, some "github_shorthand"⟩
            else
              match searchAt gitlabUrlMatchAt cs with
              | some (o, r, n) =>
                ⟨true, some "gitlab",
                  some (String.mk o ++ "/" ++ String.mk r ++ "!" ++ String.mk n),
                  some "gitlab_url"⟩
              | none =>
                match searchAt gitlabSelfHostedMatchAt cs with
                | some (o, r, n) =>
                  ⟨true, some "gitlab",
                    some (String.mk o ++ "/" ++ String.mk r ++ "!" ++ String.mk n),
                    some "gitlab_self_hosted_url"⟩
                | none =>
                  if gitlabShorthandMatch cs && cs.contains '!' then
                    ⟨true, some "gitlab", some s, some "gitlab_shorthand"⟩
                  else noIssue

/-- Embedding of `detect_ticket_source` (workflow.py).  The file
argument is modelled by its presence. -/
def detect_ticket_source (ticket_arg : Option String) (file_arg : Option String) : String :=
  match file_arg with
  | some _ => "file"
  | none =>
    match ticket_arg with
    | none => "raw"
    | some t =>
      if t = "" then "raw"
      else if (jiraSearch t.data).isSome then "jira"
      else if containsSub "atlassian.net".data t.data then "jira"
      else if containsSub "github.com".data t.data || githubShorthandMatch t.data then "github"
      else "raw"

/-- The fixed availability fallback preference order of `AssistantResolver`. -/
def FALLBACK_ORDER : List String := ["claude", "codex", "cursor", "gemini", "ollama"]

/-- Embedding of `AssistantResolver._fallback_by_availability`: first
installed tool in fallback order, defaulting to `"claude"`.  The probe
results of the `ToolManager` are passed in as the `installed` predicate. -/
def fallback_by_availability (installed : String → Bool) : String :=
  match FALLBACK_ORDER.find? installed with
  | some t => t
  | none => "claude"

/-- The candidate loop of `AssistantResolver.resolve`: return the first
truthy candidate (Python truthiness: not `None` and not `""`), falling
back to availability probing when the list is exhausted. -/
def resolveFrom (installed : String → Bool) : List (Option String) → String
  | [] => fallback_by_availability installed
  | c :: rest =>
    match c with
    | some s => if s ≠ "" then s else resolveFrom installed rest
    | none => resolveFrom installed rest

/-- Embedding of `AssistantResolver.resolve`. -/
def resolve (installed : String → Bool)
    (cli_override workflow_tool env_default project_default : Option String) : String :=
  resolveFrom installed [cli_override, workflow_tool, env_default, project_default, some "claude"]

/-- Python's `a or b` on an optional string and an optional default:
`b` when `a` is `None` or empty. -/
def pyOr (a b : Option String) : Option String :=
  match a with
  | some s => if s ≠ "" then some s else b
  | none => b

/-- Python's `a or b` on an optional string and a string default. -/
def pyOrStr (a : Option String) (b : String) : String :=
  match a with
  | some s => if s ≠ "" then s else b
  | none => b

/-- A workflow step as loaded from YAML (`WorkflowStep` dataclass). -/
structure WorkflowStep where
  name : String
  prompt : String
  tool : Option String
  timeout_sec : Int
  retries : Int
deriving DecidableEq

/-- A workflow definition (`WorkflowSpec` dataclass). -/
structure WorkflowSpec where
  name : String
  description : String
  steps : List WorkflowStep
  tool_default : Option String
deriving DecidableEq

/-- A raw step mapping as parsed from YAML; `none` models an absent key. -/
structure RawStep where
  name : Option String
  prompt : Option String
  tool : Option String
  timeout_sec : Option Int
  retries : Option Int
deriving DecidableEq

/-- A raw workflow mapping as parsed from YAML. -/
structure RawWorkflow where
  description : Option String
  tool : Option String
  steps : List RawStep
deriving DecidableEq

/-- Validate one raw step as `load_workflows` does: a missing or empty
name or prompt raises `step missing name/prompt`, aborting the whole
enclosing workflow. -/
def parseStep (s : RawStep) : Except String WorkflowStep :=
  match s.name, s.prompt with
  | some n, some p =>
    if n == "" || p == "" then Except.error "step missing name/prompt"
    else Except.ok ⟨n, p, s.tool, s.timeout_sec.getD 30, s.retries.getD 0⟩
  | _, _ => Except.error "step missing name/prompt"

/-- Validate a step list; the first invalid step aborts the list. -/
def parseSteps : List RawStep → Except String (List WorkflowStep)
  | [] => Except.ok []
  | s :: rest => do
    let w ← parseStep s
    let ws ← parseSteps rest
    pure (w :: ws)

/-- Build a `WorkflowSpec` from one merged YAML entry; any step error
makes the whole workflow fail (all-or-nothing per workflow). -/
def parseWorkflow (name : String) (spec : RawWorkflow) : Except String WorkflowSpec :=
  match parseSteps spec.steps with
  | Except.ok ws => Except.ok ⟨name, spec.description.getD "", ws, spec.tool⟩
  | Except.error e => Except.error e

/-- The dict merge in `load_workflows`: template entries first (with a
project entry of the same name replacing the template value), then
project entries whose names are new. -/
def mergeWorkflows (template project : List (String × RawWorkflow)) :
    List (String × RawWorkflow) :=
  template.map (fun e => (e.1, (project.lookup e.1).getD e.2))
    ++ project.filter (fun q => (template.lookup q.1).isNone)

/-- Embedding of `WorkflowEngine.load_workflows` over already-parsed
YAML mappings: merge template and project, then validate each entry,
dropping invalid workflows with a named warning. -/
def load_workflows (template project : List (String × RawWorkflow)) :
    List (String × WorkflowSpec) × List String :=
  let merged := mergeWorkflows template project
  (merged.filterMap (fun e =>
      match parseWorkflow e.1 e.2 with
      | Except.ok w => some (e.1, w)
      | Except.error _ => none),
   merged.filterMap (fun e =>
      match parseWorkflow e.1 e.2 with
      | Except.ok _ => none
      | Except.error msg => some (e.1 ++ ": " ++ msg)))

/-- The result payload stored in a step's `output.result` JSON field:
null, a directly stored value, or the error record
written by the retry loop (`error` text plus `attempt` number). -/
inductive StepResultVal (α : Type) where
  | null
  | val (v : α)
  | errRec (error : String) (attempt : Nat)
deriving DecidableEq

/-- The `input` sub-record of a manifest step. -/
structure StepInput where
  ticket_source : String
  ticket_text_preview : String
  user_prompt : String
  issue_context : IssueContext
deriving DecidableEq

/-- The `output` sub-record of a manifest step. -/
structure StepOutput (α : Type) where
  status : String
  result : StepResultVal α
  started_at : Option Nat
  ended_at : Option Nat
deriving DecidableEq

/-- One step record of a run manifest. -/
structure ManifestStep (α : Type) where
  name : String
  prompt_id : String
  prompt_text : String
  assistant : String
  tool_timeout_sec : Int
  retries : Int
  input : StepInput
  output : StepOutput α
deriving DecidableEq

/-- A run manifest, as persisted to a JSON file. -/
structure Manifest (α : Type) where
  workflow : String
  description : String
  schema_version : String
  ticket_source : String
  ticket_arg : Option String
  ticket_file : Option String
  steps : List (ManifestStep α)
  created_at : Nat
  manifest_path : Option String
  proposal_output : Option String
  completed_at : Option Nat
deriving DecidableEq

/-- Write a file: the new entry shadows any previous entry at the path. -/
def fsWrite {α : Type} (fs : List (String × α)) (path : String) (v : α) :
    List (String × α) :=
  (path, v) :: fs.filter (fun e => e.1 != path)

/-- Read a file. -/
def fsRead {α : Type} (fs : List (String × α)) (path : String) : Option α :=
  fs.lookup path

/-- The fixed proposal-then-execute suffix appended to every rendered
step prompt (`PROPOSAL_EXEC_SUFFIX`). -/
def PROPOSAL_EXEC_SUFFIX : String :=
  "\n\n[Mode: proposal then execute]\n" ++
  "1) Start with a concise proposal: goal, TODO checklist, risks/assumptions, and any approval needed.\n" ++
  "2) Write the proposal as Markdown to the path declared in the run manifest (field: proposal_output).\n" ++
  "3) If no approval gate is specified, immediately execute the TODOs now—apply edits/files directly.\n" ++
  "4) Narrate actions briefly; do not stop after planning.\n" ++
  "5) When done, state what you changed and where to find artifacts (edited file paths and the proposal_output path). If you could not write the file, paste the proposal inline and note the intended path.\n"

/-- `WorkflowEngine._load_prompt` plus the suffix append done in
`run_workflow`: bundled prompt lookup by id with a placeholder on miss. -/
def renderPrompt (promptLookup : String → Option String) (prompt_id : String) : String :=
  (match promptLookup prompt_id with
   | some t => t
   | none => "[prompt " ++ prompt_id ++ " not found]") ++ PROPOSAL_EXEC_SUFFIX

/-- Take the first `n` characters of a string (Python slice `s[:n]`). -/
def strTake (s : String) (n : Nat) : String := String.mk (s.data.take n)

/-- The step-filtering loop of `run_workflow` for `from_step`: keep
everything from the first step with the given name onward. -/
def filterFromStep (fromName : String) : List WorkflowStep → List WorkflowStep
  | [] => []
  | s :: rest => if s.name = fromName then s :: rest else filterFromStep fromName rest

/-- Materialize one manifest step record, as the loop body of
`run_workflow` does. -/
def buildStep {α : Type} (installed : String → Bool)
    (promptLookup : String → Option String)
    (tool_override env_default project_default : Option String)
    (wf : WorkflowSpec) (ticket_source ticket_text user_text : String)
    (issue_context : IssueContext) (step : WorkflowStep) : ManifestStep α :=
  { name := step.name
    prompt_id := step.prompt
    prompt_text := renderPrompt promptLookup step.prompt
    assistant := resolve installed tool_override (pyOr step.tool wf.tool_default)
      env_default project_default
    tool_timeout_sec := step.timeout_sec
    retries := step.retries
    input :=
      { ticket_source := ticket_source
        ticket_text_preview := if ticket_text ≠ "" then strTake ticket_text 4000 else ""
        user_prompt := strTake user_text 4000
        issue_context := issue_context }
    output := ⟨"not-run", StepResultVal.null, none, none⟩ }

/-- The timestamped manifest path built by `WorkflowEngine._persist_run`. -/
def runsFilePath (projectDir wfName ts : String) : String :=
  projectDir ++ "/.aidev/workflow-runs/" ++ wfName ++ "-" ++ ts ++ ".json"

/-- The derived proposal-output path (`path.with_suffix(".proposal.md")`). -/
def proposalFilePath (projectDir wfName ts : String) : String :=
  projectDir ++ "/.aidev/workflow-runs/" ++ wfName ++ "-" ++ ts ++ ".proposal.md"

/-- Embedding of `WorkflowEngine.run_workflow`.  External effects are
explicit parameters: `installed` (tool probe), `promptLookup` (bundled
prompt files), `env_default` (the `AIDEV_DEFAULT_ASSISTANT` variable),
`now`/`timeStamp` (clock readings), and `fs` (the manifest store).
A `ticket_file` is a `(path, contents)` pair.  Returns the updated
store and either the manifest path or the raised error; on the error
path nothing has been written.  (The side draft file emitted for the
`refactor_scout` workflow is not a manifest and is not modelled.) -/
def run_workflow {α : Type} (installed : String → Bool)
    (promptLookup : String → Option String) (env_default : Option String)
    (projectDir : String) (now : Nat) (timeStamp : String)
    (wf : WorkflowSpec) (ticket : Option String)
    (ticket_file : Option (String × String)) (user_prompt : Option String)
    (tool_override : Option String) (project_default_assistant : Option String)
    (from_step : Option String) (step_only : Bool)
    (fs : List (String × Manifest α)) :
    List (String × Manifest α) × Except String String :=
  let ticket_source := detect_ticket_source ticket (ticket_file.map Prod.fst)
  let ticket_text :=
    match ticket_file with
    | some tf => tf.2
    | none => ticket.getD ""
  let user_text := pyOrStr user_prompt ticket_text
  let issue_context := detect_issue_context (some user_text)
  let finish := fun (selected : List WorkflowStep) =>
    let chosen := if step_only then selected.take 1 else selected
    let steps_output := chosen.map
      (buildStep installed promptLookup tool_override env_default
        project_default_assistant wf ticket_source ticket_text user_text issue_context)
    let path := runsFilePath projectDir wf.name timeStamp
    let m : Manifest α :=
      { workflow := wf.name
        description := wf.description
        schema_version := "1.1"
        ticket_source := ticket_source
        ticket_arg := ticket
        ticket_file := ticket_file.map Prod.fst
        steps := steps_output
        created_at := now
        manifest_path := some path
        proposal_output := some (proposalFilePath projectDir wf.name timeStamp)
        completed_at := none }
    (fsWrite fs path m, Except.ok path)
  match from_step with
  | some fname =>
    if wf.steps.all (fun st => st.name != fname) then
      (fs, Except.error ("Step " ++ fname ++ " not found in workflow " ++ wf.name))
    else
      finish (filterFromStep fname wf.steps)
  | none => finish wf.steps

/-- The retry loop of `execute_manifest` for one step.  `runner n` is
the step-runner call on attempt `n` (the attempt index models the
impurity of the external process).  `rem` is the number of attempts the
budget still allows, `attempt` the attempts already made, `acc` the
output record written so far.  Returns the final output record and the
total number of attempts made. -/
def stepLoop {α : Type} (runner : Nat → Except String α) :
    Nat → Nat → StepOutput α → StepOutput α × Nat
  | 0, attempt, acc => (acc, attempt)
  | rem + 1, attempt, acc =>
    let att := attempt + 1
    match runner att with
    | Except.ok v => ({acc with status := "ok", result := StepResultVal.val v}, att)
    | Except.error e =>
      stepLoop runner rem att {acc with status := "error", result := StepResultVal.errRec e att}

/-- Execute one manifest step as `execute_manifest` does: steps already
`"ok"` are skipped (0 runner invocations); otherwise run the retry loop
with `retries + 1` allowed attempts, recording start and end times. -/
def executeStep {α : Type} (runner : ManifestStep α → Nat → Except String α) (now : Nat)
    (step : ManifestStep α) : ManifestStep α × Nat :=
  if step.output.status = "ok" then (step, 0)
  else
    let out0 := {step.output with started_at := some now}
    let res := stepLoop (runner step) (step.retries + 1).toNat 0 out0
    ({step with output := {res.1 with ended_at := some now}}, res.2)

/-- Embedding of `WorkflowEngine.execute_manifest` on the parsed
manifest value.  Returns the mutated manifest and, as instrumentation,
the number of runner invocations per step (same order as `steps`). -/
def execute_manifest {α : Type} (runner : ManifestStep α → Nat → Except String α)
    (now : Nat) (m : Manifest α) : Manifest α × List Nat :=
  let results := m.steps.map (executeStep runner now)
  ({m with steps := results.map Prod.fst, completed_at := some now},
   results.map Prod.snd)

/-- The update loop of `WorkflowManifest.mark_step_complete`: rewrite
status and result of the first step with the given name; `none` when no
step matches (the `ValueError` path). -/
def updFirst {α : Type} (nm : String) (r : α) (status : String) :
    List (ManifestStep α) → Option (List (ManifestStep α))
  | [] => none
  | s :: rest =>
    if s.name = nm then
      some ({s with output := {s.output with status := status, result := StepResultVal.val r}} :: rest)
    else (updFirst nm r status rest).map (s :: ·)

/-- Embedding of `WorkflowManifest.mark_step_complete`: `m` is the
in-memory manifest (`self.data`), `path` the manifest path; on success
the whole updated manifest is written back to the store (when `save`). -/
def mark_step_complete {α : Type} (fs : List (String × Manifest α)) (path : String)
    (m : Manifest α) (nm : String) (r : α) (status : String) (save : Bool) :
    Except String (Manifest α × List (String × Manifest α)) :=
  match updFirst nm r status m.steps with
  | some steps2 =>
    let m2 := {m with steps := steps2}
    Except.ok (m2, if save then fsWrite fs path m2 else fs)
  | none => Except.error ("Step " ++ nm ++ " not found in manifest")

/-- Embedding of `WorkflowManifest.get_step`: first step with the name. -/
def get_step {α : Type} (m : Manifest α) (nm : String) : Option (ManifestStep α) :=
  m.steps.find? (fun s => s.name == nm)

/-- Transcription of the spec sentence for `resolve`, used as the
reference in the refinement claim: the first non-empty candidate of the
ordered list `[cli_override, workflow_tool, env_default,
project_default, "claude"]`. -/
def specFirstNonEmpty (cli wft env proj : Option String) : String :=
  (([cli, wft, env, proj].filterMap id).filter (fun s => s != "")).headD "claude"

/-- A character list of the shape `[A-Z]+-\d+`: a nonempty uppercase
run, a dash, a nonempty digit run. -/
def isJiraShape (l : List Char) : Prop :=
  ∃ us ds, l = us ++ '-' :: ds ∧ us ≠ [] ∧ ds ≠ [] ∧
    (∀ c ∈ us, c.isUpper = true) ∧ (∀ c ∈ ds, c.isDigit = true)

/-- `cs` begins with a jira-key-shaped prefix (a match starts here). -/
def jiraStartsHere (cs : List Char) : Prop :=
  ∃ l rest, cs = l ++ rest ∧ isJiraShape l

/-- `cs` contains a jira-key-shaped substring somewhere. -/
def hasJiraKeySub (cs : List Char) : Prop :=
  ∃ pre l post, cs = pre ++ l ++ post ∧ isJiraShape l

/-- The demo workflow of the manifest-scenario claims: one step
`step1` bound to prompt `ticket_understander`. -/
def demoWorkflow : WorkflowSpec :=
  ⟨"demo", "demo workflow", [⟨"step1", "ticket_understander", none, 30, 0⟩], none⟩

/-- A minimal concrete manifest step, used by concrete witnesses. -/
def mkStep (nm status : String) (ret : Int) : ManifestStep Unit :=
  { name := nm, prompt_id := "p", prompt_text := "t", assistant := "claude",
    tool_timeout_sec := 30, retries := ret,
    input := ⟨"raw", "", "", noIssue⟩,
    output := ⟨status, StepResultVal.null, none, none⟩ }

/-- A minimal concrete manifest, used by concrete witnesses. -/
def mkManifest (steps : List (ManifestStep Unit)) : Manifest Unit :=
  { workflow := "w", description := "", schema_version := "1.1", ticket_source := "raw",
    ticket_arg := none, ticket_file := none, steps := steps, created_at := 0,
    manifest_path := some "/m.json", proposal_output := none, completed_at := none }

/-- A step-runner that raises the given message on every attempt. -/
def failRunner (msg : String) : ManifestStep Unit → Nat → Except String Unit :=
  fun _ _ => Except.error msg

/-- A step-runner that succeeds on every attempt. -/
def okRunner : ManifestStep Unit → Nat → Except String Unit :=
  fun _ _ => Except.ok ()

/-- A template version of the `shared` workflow (concrete witness data). -/
def rawWfTemplate : RawWorkflow :=
  ⟨some "template version", none, [⟨some "s1", some "p1", none, none, none⟩]⟩

/-- A project version of the `shared` workflow, differing from the
template in every field (concrete witness data). -/
def rawWfProject : RawWorkflow :=
  ⟨some "project version", some "codex", [⟨some "s2", some "p2", none, some 60, some 1⟩]⟩

/-- A workflow defined only by the template (concrete witness data). -/
def rawWfOther : RawWorkflow := ⟨some "other", none, []⟩

/-- The run of the C1 scenario: the demo workflow invoked with
`ticket = "ABC-1"` and `user_prompt = "hello world"`, on an empty
manifest store, with every tool probed as installed and no bundled
prompt file found. -/
def demoRun : List (String × Manifest Unit) × Except String String :=
  run_workflow (fun _ => true) (fun _ => none) none "/project" 100 "20250101-000000"
    demoWorkflow (some "ABC-1") none (some "hello world") none none none false []

/-- The path the demo-scenario manifest is persisted to. -/
def demoRunPath : String := "/project/.aidev/workflow-runs/demo-20250101-000000.json"

/-! ### Helper lemmas: assistant resolution -/

/-- Closed form of the candidate loop when the hard default `"claude"`
terminates the list: the availability fallback is never consulted. -/
theorem resolveFrom_append_claude (installed : String → Bool) (l : List (Option String)) :
    resolveFrom installed (l ++ [some "claude"]) =
      ((l.filterMap id).filter (fun s => s != "")).headD "claude" := by
  induction l with
  | nil => rfl
  | cons c rest ih =>
    cases c with
    | none => simpa [resolveFrom] using ih
    | some s =>
      by_cases hs : s = ""
      · subst hs
        simpa [resolveFrom] using ih
      · simp [resolveFrom, hs]

/-- The first element of a list filtered on nonemptiness is nonempty
(or the nonempty default is returned). -/
theorem headD_filter_ne_empty (l : List String) :
    (l.filter (fun s => s != "")).headD "claude" ≠ "" := by
  induction l with
  | nil => simp
  | cons s rest ih =>
    by_cases hs : s = ""
    · subst hs; simpa using ih
    · simp [List.filter_cons, hs]

/-! ### Claim theorems: assistant resolution -/

/-- C6: `AssistantResolver.resolve` returns the first non-empty
candidate of `[cli_override, workflow_tool, env_default,
project_default, "claude"]`; it is total, always returns a non-empty
string for every input combination, and returns `"claude"` when all
four arguments are `None` or empty. -/
theorem C6_resolve_first_nonempty :
    ∀ (installed : String → Bool) (cli wft env proj : Option String),
      resolve installed cli wft env proj = specFirstNonEmpty cli wft env proj ∧
      resolve installed cli wft env proj ≠ "" ∧
      resolve installed none none none none = "claude" ∧
      resolve installed (some "") (some "") (some "") (some "") = "claude" := by
  intro installed cli wft env proj
  refine ⟨?_, ?_, rfl, rfl⟩
  · exact resolveFrom_append_claude installed [cli, wft, env, proj]
  · rw [resolve, show [cli, wft, env, proj, some "claude"] =
        [cli, wft, env, proj] ++ [some "claude"] from rfl, resolveFrom_append_claude]
    exact headD_filter_ne_empty _

/-- C9: `resolve` never consults tool availability: two runs that
differ only in the installed-tool probe return the same assistant id,
because the hard default `"claude"` precedes the availability fallback
in the candidate list. -/
theorem C9_resolve_availability_independent :
    ∀ (inst1 inst2 : String → Bool) (cli wft env proj : Option String),
      resolve inst1 cli wft env proj = resolve inst2 cli wft env proj := by
  intro inst1 inst2 cli wft env proj
  rw [resolve, resolve,
    show [cli, wft, env, proj, some "claude"] = [cli, wft, env, proj] ++ [some "claude"] from rfl,
    resolveFrom_append_claude, resolveFrom_append_claude]

/-! ### Claim theorems: `from_step` resolution errors -/

/-- C4: for every workflow and every `from_step` name matching no step
of the workflow, `run_workflow` raises and the manifest store is left
unchanged (no manifest file is written on this error path). -/
theorem C4_from_step_absent_no_manifest {α : Type} (installed : String → Bool)
    (promptLookup : String → Option String) (env_default : Option String)
    (projectDir : String) (now : Nat) (timeStamp : String) (wf : WorkflowSpec)
    (ticket : Option String) (ticket_file : Option (String × String))
    (user_prompt tool_override project_default_assistant : Option String)
    (fname : String) (step_only : Bool) (fs : List (String × Manifest α))
    (h : ∀ st ∈ wf.steps, st.name ≠ fname) :
    (run_workflow installed promptLookup env_default projectDir now timeStamp wf
        ticket ticket_file user_prompt tool_override project_default_assistant
        (some fname) step_only fs).1 = fs ∧
    ∃ e, (run_workflow installed promptLookup env_default projectDir now timeStamp wf
        ticket ticket_file user_prompt tool_override project_default_assistant
        (some fname) step_only fs).2 = Except.error e := by
  have hall : wf.steps.all (fun st => st.name != fname) = true := by
    rw [List.all_eq_true]
    intro st hst
    exact bne_iff_ne.mpr (h st hst)
  refine ⟨?_, ⟨"Step " ++ fname ++ " not found in workflow " ++ wf.name, ?_⟩⟩ <;>
    simp [run_workflow, hall]

/-- Concrete witness for C4: `from_step = "nope"` is absent from the
demo workflow, so the run errors and writes nothing. -/
theorem C4_witness :
    (∀ st ∈ demoWorkflow.steps, st.name ≠ "nope") ∧
    (run_workflow (α := Unit) (fun _ => true) (fun _ => none) none "/project" 0 "ts"
        demoWorkflow none none none none none (some "nope") false []).1 = [] ∧
    ∃ e, (run_workflow (α := Unit) (fun _ => true) (fun _ => none) none "/project" 0 "ts"
        demoWorkflow none none none none none (some "nope") false []).2 = Except.error e := by
  have h : ∀ st ∈ demoWorkflow.steps, st.name ≠ "nope" := by decide
  exact ⟨h, C4_from_step_absent_no_manifest (fun _ => true) (fun _ => none) none
    "/project" 0 "ts" demoWorkflow none none none none none "nope" false [] h⟩

/-! ### Helper lemmas: the retry loop of `execute_manifest` -/

/-- Closed form of the retry loop under a runner that raises on every
attempt: all `rem + 1` remaining attempts are made and the last error
is recorded together with the final attempt number. -/
theorem stepLoop_all_fail {α : Type} (runner : Nat → Except String α) (err : Nat → String)
    (hfail : ∀ n, runner n = Except.error (err n)) :
    ∀ (rem attempt : Nat) (acc : StepOutput α),
      stepLoop runner (rem + 1) attempt acc =
        ({acc with
            status := "error",
            result := StepResultVal.errRec (err (attempt + rem + 1)) (attempt + rem + 1)},
          attempt + rem + 1) := by
  intro rem
  induction rem with
  | zero =>
    intro attempt acc
    simp [stepLoop, hfail]
  | succ k ih =>
    intro attempt acc
    have h1 : stepLoop runner (k + 1 + 1) attempt acc =
        stepLoop runner (k + 1) (attempt + 1)
          {acc with
            status := "error",
            result := StepResultVal.errRec (err (attempt + 1)) (attempt + 1)} := by
      simp [stepLoop, hfail]
    rw [h1, ih]
    have h2 : attempt + 1 + k + 1 = attempt + (k + 1) + 1 := by omega
    rw [h2]

/-- The attempt counter never decreases through the loop. -/
theorem stepLoop_snd_ge {α : Type} (runner : Nat → Except String α) :
    ∀ (rem attempt : Nat) (acc : StepOutput α),
      attempt ≤ (stepLoop runner rem attempt acc).2 := by
  intro rem
  induction rem with
  | zero => intro a acc; simp [stepLoop]
  | succ k ih =>
    intro a acc
    cases h : runner (a + 1) with
    | ok v => simp [stepLoop, h]
    | error e =>
      simp only [stepLoop, h]
      have h3 := ih (a + 1)
        {acc with status := "error", result := StepResultVal.errRec e (a + 1)}
      omega

/-- With at least one attempt still allowed, the loop makes at least
one more attempt. -/
theorem stepLoop_snd_ge_succ {α : Type} (runner : Nat → Except String α) :
    ∀ (rem attempt : Nat) (acc : StepOutput α),
      attempt + 1 ≤ (stepLoop runner (rem + 1) attempt acc).2 := by
  intro rem a acc
  cases h : runner (a + 1) with
  | ok v => simp [stepLoop, h]
  | error e =>
    simp only [stepLoop, h]
    exact stepLoop_snd_ge runner rem (a + 1) _

/-- The loop never exceeds its budget of remaining attempts. -/
theorem stepLoop_snd_le {α : Type} (runner : Nat → Except String α) :
    ∀ (rem attempt : Nat) (acc : StepOutput α),
      (stepLoop runner rem attempt acc).2 ≤ attempt + rem := by
  intro rem
  induction rem with
  | zero => intro a acc; simp [stepLoop]
  | succ k ih =>
    intro a acc
    cases h : runner (a + 1) with
    | ok v => simp [stepLoop, h]
    | error e =>
      simp only [stepLoop, h]
      exact le_trans (ih (a + 1) _) (by omega)

/-- The attempt count of `executeStep` on a step that is not `"ok"`. -/
theorem executeStep_snd {α : Type} (runner : ManifestStep α → Nat → Except String α)
    (now : Nat) (s : ManifestStep α) (h : ¬ s.output.status = "ok") :
    (executeStep runner now s).2 =
      (stepLoop (runner s) ((s.retries + 1).toNat) 0 {s.output with started_at := some now}).2 := by
  simp [executeStep, h]

/-! ### Claim theorems: `execute_manifest` -/

/-- C2: a step with retry budget `r` whose runner raises on every
attempt is attempted exactly `r + 1` times; its status ends `"error"`
with the last error and attempt count recorded in `result`; the run is
not aborted and `completed_at` is still set. -/
theorem C2_retry_exhaustion {α : Type} (runner : ManifestStep α → Nat → Except String α)
    (now : Nat) (m : Manifest α) (i r : Nat) (s : ManifestStep α) (err : Nat → String)
    (hi : m.steps[i]? = some s)
    (hstat : ¬ s.output.status = "ok")
    (hr : s.retries = (r : Int))
    (hfail : ∀ n, runner s n = Except.error (err n)) :
    (execute_manifest runner now m).2[i]? = some (r + 1) ∧
    (∃ s2, (execute_manifest runner now m).1.steps[i]? = some s2 ∧
      s2.output.status = "error" ∧
      s2.output.result = StepResultVal.errRec (err (r + 1)) (r + 1)) ∧
    (execute_manifest runner now m).1.completed_at = some now := by
  have htn : (s.retries + 1).toNat = r + 1 := by rw [hr]; omega
  have hexe : executeStep runner now s =
      ({s with output :=
          { status := "error",
            result := StepResultVal.errRec (err (r + 1)) (r + 1),
            started_at := some now, ended_at := some now }}, r + 1) := by
    rw [executeStep, if_neg hstat]
    simp only [htn, stepLoop_all_fail (runner s) err hfail r 0, Nat.zero_add]
  have h1 : (execute_manifest runner now m).1.steps[i]? =
      some (executeStep runner now s).1 := by
    simp [execute_manifest, List.getElem?_map, hi]
  have h2 : (execute_manifest runner now m).2[i]? =
      some (executeStep runner now s).2 := by
    simp [execute_manifest, List.getElem?_map, hi]
  rw [hexe] at h1 h2
  exact ⟨h2, ⟨_, h1, rfl, rfl⟩, by simp [execute_manifest]⟩

/-- Concrete witness for C2: retry budget 2, runner always raising
`boom`, so 3 attempts, final status `"error"` recording attempt 3, and
`completed_at` set. -/
theorem C2_witness :
    (execute_manifest (failRunner "boom") 7
        (mkManifest [mkStep "s1" "not-run" 2])).2[0]? = some (2 + 1) ∧
    (∃ s2, (execute_manifest (failRunner "boom") 7
        (mkManifest [mkStep "s1" "not-run" 2])).1.steps[0]? = some s2 ∧
      s2.output.status = "error" ∧
      s2.output.result = StepResultVal.errRec "boom" (2 + 1)) ∧
    (execute_manifest (failRunner "boom") 7
        (mkManifest [mkStep "s1" "not-run" 2])).1.completed_at = some 7 :=
  C2_retry_exhaustion (failRunner "boom") 7
    (mkManifest [mkStep "s1" "not-run" 2]) 0 2 (mkStep "s1" "not-run" 2)
    (fun _ => "boom") rfl (by decide) rfl (fun _ => rfl)

/-- C3: `execute_manifest` leaves every step whose status is `"ok"`
completely unchanged and never invokes the runner for it (0 attempts),
while every `"not-run"` step (with a non-negative retry budget) is
attempted at least once. -/
theorem C3_resume_idempotent {α : Type} (runner : ManifestStep α → Nat → Except String α)
    (now : Nat) (m : Manifest α) :
    ∀ (i : Nat) (s : ManifestStep α), m.steps[i]? = some s →
      (s.output.status = "ok" →
        (execute_manifest runner now m).1.steps[i]? = some s ∧
        (execute_manifest runner now m).2[i]? = some 0) ∧
      (s.output.status = "not-run" → (0 : Int) ≤ s.retries →
        ∃ a, (execute_manifest runner now m).2[i]? = some a ∧ 1 ≤ a) := by
  intro i s hi
  have h1 : (execute_manifest runner now m).1.steps[i]? =
      some (executeStep runner now s).1 := by
    simp [execute_manifest, List.getElem?_map, hi]
  have h2 : (execute_manifest runner now m).2[i]? =
      some (executeStep runner now s).2 := by
    simp [execute_manifest, List.getElem?_map, hi]
  constructor
  · intro hok
    have hskip : executeStep runner now s = (s, 0) := by simp [executeStep, hok]
    rw [hskip] at h1 h2
    exact ⟨h1, h2⟩
  · intro hnr hret
    have hne : ¬ s.output.status = "ok" := by rw [hnr]; decide
    refine ⟨(executeStep runner now s).2, h2, ?_⟩
    rw [executeStep_snd runner now s hne]
    have hk : (s.retries + 1).toNat = ((s.retries + 1).toNat - 1) + 1 := by omega
    rw [hk]
    exact stepLoop_snd_ge_succ (runner s) _ 0 _

/-- Concrete witness for C3: step `A` is `"ok"`, step `B` is
`"not-run"`; executing leaves `A` untouched with 0 attempts and
attempts `B` at least once. -/
theorem C3_witness :
    ((execute_manifest okRunner 9
        (mkManifest [mkStep "A" "ok" 0, mkStep "B" "not-run" 0])).1.steps[0]? =
      some (mkStep "A" "ok" 0) ∧
     (execute_manifest okRunner 9
        (mkManifest [mkStep "A" "ok" 0, mkStep "B" "not-run" 0])).2[0]? = some 0) ∧
    (∃ a, (execute_manifest okRunner 9
        (mkManifest [mkStep "A" "ok" 0, mkStep "B" "not-run" 0])).2[1]? = some a ∧ 1 ≤ a) :=
  ⟨(C3_resume_idempotent okRunner 9
      (mkManifest [mkStep "A" "ok" 0, mkStep "B" "not-run" 0]) 0
      (mkStep "A" "ok" 0) rfl).1 rfl,
   (C3_resume_idempotent okRunner 9
      (mkManifest [mkStep "A" "ok" 0, mkStep "B" "not-run" 0]) 1
      (mkStep "B" "not-run" 0) rfl).2 rfl (by decide)⟩

/-- C10: every step whose status is not `"ok"` — including `"error"`
and `"failed"` — is re-attempted on resume (at least once, within a
fresh budget of `retries + 1` attempts); under an always-raising runner
the full fresh budget is used. -/
theorem C10_non_ok_reattempted {α : Type} (runner : ManifestStep α → Nat → Except String α)
    (now : Nat) (m : Manifest α) :
    ∀ (i : Nat) (s : ManifestStep α), m.steps[i]? = some s →
      ¬ s.output.status = "ok" → (0 : Int) ≤ s.retries →
      (∃ a, (execute_manifest runner now m).2[i]? = some a ∧ 1 ≤ a ∧
        a ≤ (s.retries + 1).toNat) ∧
      ((∀ n, ∃ e, runner s n = Except.error e) →
        (execute_manifest runner now m).2[i]? = some (s.retries + 1).toNat) := by
  intro i s hi hne hret
  have h2 : (execute_manifest runner now m).2[i]? =
      some (executeStep runner now s).2 := by
    simp [execute_manifest, List.getElem?_map, hi]
  have hk : (s.retries + 1).toNat = ((s.retries + 1).toNat - 1) + 1 := by omega
  constructor
  · refine ⟨(executeStep runner now s).2, h2, ?_, ?_⟩
    · rw [executeStep_snd runner now s hne, hk]
      exact stepLoop_snd_ge_succ (runner s) _ 0 _
    · rw [executeStep_snd runner now s hne]
      exact le_trans (stepLoop_snd_le (runner s) _ 0 _) (by omega)
  · intro hfails
    choose err herr using hfails
    rw [h2, executeStep_snd runner now s hne, hk,
      stepLoop_all_fail (runner s) err herr _ 0 _]
    simp

/-- Concrete witness for C10: a step previously recorded `"error"` with
budget 1 is re-attempted; under an always-raising runner both fresh
attempts are used. -/
theorem C10_witness :
    (∃ a, (execute_manifest (failRunner "again") 3
        (mkManifest [mkStep "s1" "error" 1])).2[0]? = some a ∧ 1 ≤ a ∧
        a ≤ ((mkStep "s1" "error" 1).retries + 1).toNat) ∧
    ((∀ n : Nat, ∃ e, failRunner "again" (mkStep "s1" "error" 1) n = Except.error e) →
      (execute_manifest (failRunner "again") 3
        (mkManifest [mkStep "s1" "error" 1])).2[0]? =
        some ((mkStep "s1" "error" 1).retries + 1).toNat) :=
  C10_non_ok_reattempted (failRunner "again") 3
    (mkManifest [mkStep "s1" "error" 1]) 0 (mkStep "s1" "error" 1) rfl (by decide) (by decide)

/-! ### Helper lemmas: association-list lookups for the catalog merge -/

/-- Looking a key up in a key-preserving map of an association list. -/
theorem lookup_map_keyed {β γ : Type} (f : String → β → γ) :
    ∀ (l : List (String × β)) (n : String),
      (l.map (fun e => (e.1, f e.1 e.2))).lookup n = (l.lookup n).map (f n) := by
  intro l
  induction l with
  | nil => intro n; rfl
  | cons e rest ih =>
    intro n
    obtain ⟨k, v⟩ := e
    by_cases h : n = k
    · subst h; simp [List.lookup]
    · have hb : (n == k) = false := beq_eq_false_iff_ne.mpr h
      simp [List.lookup, hb, ih]

/-- A successful lookup in the left part survives appending. -/
theorem lookup_append_left {β : Type} :
    ∀ (l1 l2 : List (String × β)) (n : String) (v : β),
      l1.lookup n = some v → (l1 ++ l2).lookup n = some v := by
  intro l1
  induction l1 with
  | nil => intro l2 n v h; cases h
  | cons e rest ih =>
    intro l2 n v h
    obtain ⟨k, w⟩ := e
    by_cases hb : (n == k) = true
    · simp_all [List.lookup]
    · rw [Bool.not_eq_true] at hb
      simp only [List.lookup, hb] at h
      simpa [List.lookup, hb] using ih l2 n v h

/-- A failed lookup in the left part defers to the right part. -/
theorem lookup_append_right {β : Type} :
    ∀ (l1 l2 : List (String × β)) (n : String),
      l1.lookup n = none → (l1 ++ l2).lookup n = l2.lookup n := by
  intro l1
  induction l1 with
  | nil => intro l2 n _; rfl
  | cons e rest ih =>
    intro l2 n h
    obtain ⟨k, w⟩ := e
    by_cases hb : (n == k) = true
    · simp_all [List.lookup]
    · rw [Bool.not_eq_true] at hb
      simp only [List.lookup, hb] at h
      simpa [List.lookup, hb] using ih l2 n h

/-- Filtering does not change a lookup whose key always satisfies the
filter predicate. -/
theorem lookup_filter_of_key {β : Type} (p : String × β → Bool) :
    ∀ (l : List (String × β)) (n : String), (∀ v, p (n, v) = true) →
      (l.filter p).lookup n = l.lookup n := by
  intro l
  induction l with
  | nil => intro n _; rfl
  | cons e rest ih =>
    intro n hp
    obtain ⟨k, v⟩ := e
    by_cases h : n = k
    · subst h
      rw [List.filter_cons, hp v]
      simp [List.lookup, ih _ hp]
    · have hb : (n == k) = false := beq_eq_false_iff_ne.mpr h
      rw [List.filter_cons]
      cases hpe : p (k, v) with
      | true => simp [List.lookup, hb, ih _ hp]
      | false => simp [List.lookup, hb, ih _ hp]

/-- Merged-catalog lookup: a name defined by the project resolves to
the project's raw definition, whatever the template holds. -/
theorem mergeWorkflows_lookup_project (template project : List (String × RawWorkflow))
    (n : String) (rp : RawWorkflow) (hp : project.lookup n = some rp) :
    (mergeWorkflows template project).lookup n = some rp := by
  rw [mergeWorkflows]
  cases ht : template.lookup n with
  | some tv =>
    refine lookup_append_left _ _ n rp ?_
    rw [lookup_map_keyed (fun k sp => (project.lookup k).getD sp) template n, ht]
    simp [hp]
  | none =>
    rw [lookup_append_right _ _ n
      (by rw [lookup_map_keyed (fun k sp => (project.lookup k).getD sp) template n, ht]; rfl)]
    rw [lookup_filter_of_key _ project n (fun v => by simp [ht])]
    exact hp

/-- Merged-catalog lookup: a name not defined by the project resolves
to the template's raw definition. -/
theorem mergeWorkflows_lookup_template (template project : List (String × RawWorkflow))
    (n : String) (tv : RawWorkflow) (hp : project.lookup n = none)
    (ht : template.lookup n = some tv) :
    (mergeWorkflows template project).lookup n = some tv := by
  rw [mergeWorkflows]
  refine lookup_append_left _ _ n tv ?_
  rw [lookup_map_keyed (fun k sp => (project.lookup k).getD sp) template n, ht]
  simp [hp]

/-- Validation preserves a lookup that parses successfully: the loaded
catalog maps the name to exactly the parsed definition. -/
theorem load_lookup_of_parse (n : String) (sp : RawWorkflow) (w : WorkflowSpec) :
    ∀ (l : List (String × RawWorkflow)), l.lookup n = some sp →
      parseWorkflow n sp = Except.ok w →
      (l.filterMap (fun e =>
        match parseWorkflow e.1 e.2 with
        | Except.ok w2 => some (e.1, w2)
        | Except.error _ => none)).lookup n = some w := by
  intro l
  induction l with
  | nil => intro h _; cases h
  | cons e rest ih =>
    intro h hw
    obtain ⟨k, v⟩ := e
    by_cases hk : n = k
    · subst hk
      simp only [List.lookup, beq_self_eq_true] at h
      injection h with h
      subst h
      rw [List.filterMap_cons]
      simp only [hw]
      simp [List.lookup]
    · have hb : (n == k) = false := beq_eq_false_iff_ne.mpr hk
      simp only [List.lookup, hb] at h
      rw [List.filterMap_cons]
      cases hpe : parseWorkflow k v with
      | ok w2 => simp only []; simp [List.lookup, hb, ih h hw]
      | error msg => simp [ih h hw]

/-! ### Claim theorems: catalog merge -/

/-- C7: when the project workflows file defines a workflow with the
same name as a template workflow, `load_workflows` returns exactly the
project's (parsed) definition for that name — a full replacement,
independent of whatever the template defines under that name — while
template workflows with other names remain available. -/
theorem C7_project_override_replaces (template project : List (String × RawWorkflow))
    (n : String) (rp : RawWorkflow) (w : WorkflowSpec)
    (hp : project.lookup n = some rp) (hw : parseWorkflow n rp = Except.ok w) :
    (load_workflows template project).1.lookup n = some w ∧
    (∀ (m2 : String) (tv : RawWorkflow) (wv : WorkflowSpec),
      project.lookup m2 = none → template.lookup m2 = some tv →
      parseWorkflow m2 tv = Except.ok wv →
      (load_workflows template project).1.lookup m2 = some wv) := by
  constructor
  · exact load_lookup_of_parse n rp w _
      (mergeWorkflows_lookup_project template project n rp hp) hw
  · intro m2 tv wv hpm htm hwm
    exact load_lookup_of_parse m2 tv wv _
      (mergeWorkflows_lookup_template template project m2 tv hpm htm) hwm

/-- Concrete witness for C7: the project redefines `shared`; the loaded
catalog holds exactly the project's parsed definition for `shared` and
the template's for `temponly`. -/
theorem C7_witness :
    (load_workflows [("shared", rawWfTemplate), ("temponly", rawWfOther)]
        [("shared", rawWfProject)]).1.lookup "shared" =
      some ⟨"shared", "project version", [⟨"s2", "p2", none, 60, 1⟩], some "codex"⟩ ∧
    (load_workflows [("shared", rawWfTemplate), ("temponly", rawWfOther)]
        [("shared", rawWfProject)]).1.lookup "temponly" =
      some ⟨"temponly", "other", [], none⟩ := by
  have h := C7_project_override_replaces
    [("shared", rawWfTemplate), ("temponly", rawWfOther)] [("shared", rawWfProject)]
    "shared" rawWfProject ⟨"shared", "project version", [⟨"s2", "p2", none, 60, 1⟩], some "codex"⟩
    rfl rfl
  exact ⟨h.1, h.2 "temponly" rawWfOther ⟨"temponly", "other", [], none⟩ rfl rfl rfl⟩

/-! ### Helper lemmas: incremental manifest update -/

/-- `updFirst` succeeds whenever some step carries the name, and the
first step with that name in the result carries the new status and
result. -/
theorem updFirst_spec {α : Type} (nm : String) (r : α) (status : String) :
    ∀ steps : List (ManifestStep α), (∃ s ∈ steps, s.name = nm) →
      ∃ steps2, updFirst nm r status steps = some steps2 ∧
        ∃ s2, steps2.find? (fun s => s.name == nm) = some s2 ∧
          s2.output.status = status ∧ s2.output.result = StepResultVal.val r := by
  intro steps
  induction steps with
  | nil =>
    rintro ⟨s, hs, _⟩
    exact absurd hs (List.not_mem_nil s)
  | cons s rest ih =>
    rintro ⟨t, ht, hname⟩
    by_cases h : s.name = nm
    · refine ⟨{s with output :=
          {s.output with status := status, result := StepResultVal.val r}} :: rest,
        by simp [updFirst, h], ?_⟩
      refine ⟨_, List.find?_cons_of_pos _ (by simp [h]), rfl, rfl⟩
    · have hrest : ∃ t ∈ rest, t.name = nm := by
        rcases List.mem_cons.mp ht with h1 | h1
        · exact absurd (h1 ▸ hname) h
        · exact ⟨t, h1, hname⟩
      obtain ⟨steps2, hupd, s2, hfind, hst, hres⟩ := ih hrest
      refine ⟨s :: steps2, by simp [updFirst, h, hupd], s2, ?_, hst, hres⟩
      rw [List.find?_cons_of_neg _ (by simp [h])]
      exact hfind

/-! ### Claim theorems: incremental manifest update -/

/-- C8: for every manifest containing a step with the given name,
`mark_step_complete(name, result)` rewrites that step's status to
`"ok"` and its result to the passed value, persists the entire updated
manifest immediately as a single write, and reloading the manifest
from the store yields exactly that manifest, whose step record carries
`status = "ok"` and the identical result. -/
theorem C8_mark_step_roundtrip {α : Type} (fs : List (String × Manifest α)) (path : String)
    (m : Manifest α) (nm : String) (r : α)
    (h : ∃ s ∈ m.steps, s.name = nm) :
    ∃ steps2,
      updFirst nm r "ok" m.steps = some steps2 ∧
      mark_step_complete fs path m nm r "ok" true =
        Except.ok ({m with steps := steps2}, fsWrite fs path {m with steps := steps2}) ∧
      fsRead (fsWrite fs path {m with steps := steps2}) path =
        some {m with steps := steps2} ∧
      ∃ s2, get_step {m with steps := steps2} nm = some s2 ∧
        s2.output.status = "ok" ∧ s2.output.result = StepResultVal.val r := by
  obtain ⟨steps2, hupd, s2, hfind, hst, hres⟩ := updFirst_spec nm r "ok" m.steps h
  refine ⟨steps2, hupd, ?_, ?_, s2, ?_, hst, hres⟩
  · simp [mark_step_complete, hupd]
  · simp [fsRead, fsWrite, List.lookup]
  · simpa [get_step] using hfind

/-- Concrete witness for C8: marking the single `not-run` step `A`
complete and reloading yields `status = "ok"` with the passed result. -/
theorem C8_witness :
    ∃ steps2,
      updFirst "A" () "ok" (mkManifest [mkStep "A" "not-run" 0]).steps = some steps2 ∧
      mark_step_complete [] "/m.json" (mkManifest [mkStep "A" "not-run" 0]) "A" () "ok" true =
        Except.ok ({mkManifest [mkStep "A" "not-run" 0] with steps := steps2},
          fsWrite [] "/m.json" {mkManifest [mkStep "A" "not-run" 0] with steps := steps2}) ∧
      fsRead (fsWrite [] "/m.json" {mkManifest [mkStep "A" "not-run" 0] with steps := steps2})
          "/m.json" =
        some {mkManifest [mkStep "A" "not-run" 0] with steps := steps2} ∧
      ∃ s2, get_step {mkManifest [mkStep "A" "not-run" 0] with steps := steps2} "A" = some s2 ∧
        s2.output.status = "ok" ∧ s2.output.result = StepResultVal.val () :=
  C8_mark_step_roundtrip [] "/m.json" (mkManifest [mkStep "A" "not-run" 0]) "A" ()
    ⟨mkStep "A" "not-run" 0, by decide, rfl⟩

/-! ### Helper lemmas: the jira-key matcher -/

/-- Splitting a list at the end of its `takeWhile` prefix. -/
theorem takeWhile_append_drop_self (p : Char → Bool) :
    ∀ cs : List Char, cs = cs.takeWhile p ++ cs.drop (cs.takeWhile p).length := by
  intro cs
  induction cs with
  | nil => rfl
  | cons c rest ih =>
    cases hc : p c with
    | true =>
      rw [List.takeWhile_cons, if_pos hc, List.length_cons, List.drop_succ_cons,
        List.cons_append, ← ih]
    | false =>
      rw [List.takeWhile_cons, if_neg (by simp [hc]), List.length_nil, List.drop_zero,
        List.nil_append]

/-- Every element of a `takeWhile` prefix satisfies the predicate. -/
theorem mem_takeWhile_pred (p : Char → Bool) :
    ∀ (l : List Char) (c : Char), c ∈ l.takeWhile p → p c = true := by
  intro l
  induction l with
  | nil => intro c hc; cases hc
  | cons x rest ih =>
    intro c hc
    cases hx : p x with
    | true =>
      rw [List.takeWhile_cons, if_pos hx] at hc
      rcases List.mem_cons.mp hc with h1 | h1
      · rw [h1]; exact hx
      · exact ih c h1
    | false =>
      rw [List.takeWhile_cons, if_neg (by simp [hx])] at hc
      cases hc

/-- The first element surviving a maximal `takeWhile` prefix falsifies
the predicate. -/
theorem head_drop_takeWhile_false (p : Char → Bool) :
    ∀ (l : List Char) (c : Char),
      (l.drop (l.takeWhile p).length).head? = some c → p c = false := by
  intro l
  induction l with
  | nil => intro c hc; cases hc
  | cons x rest ih =>
    intro c hc
    cases hx : p x with
    | true =>
      rw [List.takeWhile_cons, if_pos hx, List.length_cons, List.drop_succ_cons] at hc
      exact ih c hc
    | false =>
      rw [List.takeWhile_cons, if_neg (by simp [hx]), List.length_nil, List.drop_zero,
        List.head?_cons] at hc
      injection hc with hc
      rw [← hc]
      exact hx

/-- A maximal run of `p`-elements followed by a `p`-falsifying element
is exactly the `takeWhile` prefix. -/
theorem takeWhile_append_stop (p : Char → Bool) :
    ∀ (xs : List Char) (y : Char) (zs : List Char),
      (∀ c ∈ xs, p c = true) → p y = false →
      (xs ++ y :: zs).takeWhile p = xs := by
  intro xs
  induction xs with
  | nil =>
    intro y zs _ hy
    rw [List.nil_append, List.takeWhile_cons, if_neg (by simp [hy])]
  | cons x rest ih =>
    intro y zs hall hy
    have hx : p x = true := hall x (List.mem_cons_self x rest)
    rw [List.cons_append, List.takeWhile_cons, if_pos hx,
      ih y zs (fun c hc => hall c (List.mem_cons_of_mem x hc)) hy]

/-- A list whose `head?` is `some c` is `c` consed on its tail. -/
theorem eq_cons_of_head? :
    ∀ (l : List Char) (c : Char), l.head? = some c → l = c :: l.tail := by
  intro l c h
  cases l with
  | nil => cases h
  | cons x rest =>
    rw [List.head?_cons] at h
    injection h with h
    rw [h]
    rfl

/-- Soundness of the anchored jira-key matcher: a match is a
jira-key-shaped prefix of the input whose digit run is maximal. -/
theorem jiraMatchAt_sound :
    ∀ (cs m : List Char), jiraMatchAt cs = some m →
      ∃ rest, cs = m ++ rest ∧ isJiraShape m ∧
        (∀ c, rest.head? = some c → c.isDigit = false) := by
  intro cs m h
  rw [jiraMatchAt] at h
  by_cases hup : (cs.takeWhile Char.isUpper).isEmpty
  · rw [if_pos hup] at h; cases h
  · rw [if_neg hup] at h
    by_cases hhd : (cs.drop (cs.takeWhile Char.isUpper).length).head? = some '-'
    · rw [if_pos hhd] at h
      rcases Option.map_eq_some'.mp h with ⟨ds, hds, hm⟩
      rw [digitRun] at hds
      by_cases hde : ((cs.drop (cs.takeWhile Char.isUpper).length).tail.takeWhile Char.isDigit).isEmpty
      · rw [if_pos hde] at hds; cases hds
      · rw [if_neg hde] at hds
        injection hds with hds
        subst hds
        subst hm
        set ups := cs.takeWhile Char.isUpper with hups
        set rest := cs.drop ups.length with hrest
        set tl := rest.tail with htl
        set ds := tl.takeWhile Char.isDigit with hdsdef
        refine ⟨tl.drop ds.length, ?_, ?_, ?_⟩
        · calc cs = ups ++ rest := takeWhile_append_drop_self Char.isUpper cs
            _ = ups ++ '-' :: tl := by rw [← eq_cons_of_head? rest '-' hhd]
            _ = ups ++ '-' :: (ds ++ tl.drop ds.length) := by
                rw [← takeWhile_append_drop_self Char.isDigit tl]
            _ = (ups ++ '-' :: ds) ++ tl.drop ds.length := by simp
        · exact ⟨ups, ds,
            rfl,
            by simpa [List.isEmpty_iff] using hup,
            by simpa [List.isEmpty_iff] using hde,
            fun c hc => mem_takeWhile_pred Char.isUpper cs c hc,
            fun c hc => mem_takeWhile_pred Char.isDigit tl c hc⟩
        · intro c hc
          exact head_drop_takeWhile_false Char.isDigit tl c hc
    · rw [if_neg hhd] at h; cases h

/-- Completeness of the anchored matcher: whenever a jira-key-shaped
prefix starts at the head of `cs`, the matcher succeeds. -/
theorem jiraMatchAt_complete (cs : List Char) (h : jiraStartsHere cs) :
    (jiraMatchAt cs).isSome := by
  obtain ⟨l, rest, hcs, us, ds, hl, hus, hds, hupc, hdsc⟩ := h
  subst hl
  subst hcs
  have hsplit : (us ++ '-' :: ds) ++ rest = us ++ '-' :: (ds ++ rest) := by simp
  rw [hsplit]
  have htw : (us ++ '-' :: (ds ++ rest)).takeWhile Char.isUpper = us :=
    takeWhile_append_stop Char.isUpper us '-' (ds ++ rest) hupc (by decide)
  rw [jiraMatchAt]
  simp only [htw]
  rw [if_neg (by simpa [List.isEmpty_iff] using hus)]
  rw [List.drop_left]
  rw [if_pos (by rw [List.head?_cons])]
  rcases ds with _ | ⟨d, dt⟩
  · exact absurd rfl hds
  · have hd : Char.isDigit d = true := hdsc d (List.mem_cons_self d dt)
    rw [List.tail_cons, digitRun]
    rw [List.cons_append, List.takeWhile_cons, hd]
    simp

/-- Soundness of the leftmost search: the returned key is a
jira-key-shaped substring with a maximal digit run, and no match starts
at any earlier position. -/
theorem jiraSearch_sound :
    ∀ (cs m : List Char), jiraSearch cs = some m →
      ∃ pre rest, cs = pre ++ m ++ rest ∧ isJiraShape m ∧
        (∀ c, rest.head? = some c → c.isDigit = false) ∧
        (∀ j, j < pre.length → jiraMatchAt (cs.drop j) = none) := by
  intro cs
  induction cs with
  | nil =>
    intro m h
    rw [jiraSearch, searchAt, show jiraMatchAt [] = none from rfl] at h
    cases h
  | cons c rest ih =>
    intro m h
    rw [jiraSearch, searchAt] at h
    rcases hm : jiraMatchAt (c :: rest) with _ | m0
    · rw [hm] at h
      obtain ⟨pre, rest2, hcs, hshape, hnd, hnone⟩ := ih m (by rw [jiraSearch]; exact h)
      refine ⟨c :: pre, rest2, by simp [hcs], hshape, hnd, ?_⟩
      intro j hj
      cases j with
      | zero => simpa using hm
      | succ j2 =>
        rw [List.drop_succ_cons]
        exact hnone j2 (by simpa using hj)
    · rw [hm] at h
      injection h with h
      subst h
      obtain ⟨rest2, hcs, hshape, hnd⟩ := jiraMatchAt_sound _ _ hm
      exact ⟨[], rest2, by simpa using hcs, hshape, hnd, by intro j hj; cases hj⟩

/-- The search succeeds when a match starts at the head. -/
theorem jiraSearch_isSome_of_startsHere (cs : List Char) (h : jiraStartsHere cs) :
    (jiraSearch cs).isSome := by
  have hm := jiraMatchAt_complete cs h
  cases cs with
  | nil => simpa [jiraSearch, searchAt] using hm
  | cons c rest =>
    rw [jiraSearch, searchAt]
    rcases hmm : jiraMatchAt (c :: rest) with _ | m0
    · rw [hmm] at hm; cases hm
    · simp

/-- Completeness of the leftmost search: a jira-key-shaped substring
anywhere makes the search succeed. -/
theorem jiraSearch_complete :
    ∀ (pre rest : List Char), jiraStartsHere rest →
      (jiraSearch (pre ++ rest)).isSome := by
  intro pre
  induction pre with
  | nil => intro rest h; simpa using jiraSearch_isSome_of_startsHere rest h
  | cons c pre2 ih =>
    intro rest h
    rw [List.cons_append, jiraSearch, searchAt]
    rcases hmm : jiraMatchAt (c :: (pre2 ++ rest)) with _ | m0
    · simpa [jiraSearch] using ih rest h
    · simp

/-! ### Claim theorems: jira-key classification -/

/-- C5: every text containing a substring of shape `[A-Z]+-\d+` and no
Atlassian-host marker is classified `is_issue = true`,
`issue_type = "jira"`, `detected_pattern = "jira_key"`, with `issue_id`
the first matched key: a jira-key-shaped substring with maximal digit
extent such that no match starts at any earlier position.  Matching is
uppercase-only: `detect_issue_context "abc-123"` is not an issue. -/
theorem C5_jira_key_detection :
    (∀ s : String, hasJiraKeySub s.data →
      containsSub "atlassian.net".data s.data = false →
      ∃ k : List Char,
        jiraSearch s.data = some k ∧
        detect_issue_context (some s) =
          ⟨true, some "jira", some (String.mk k), some "jira_key"⟩ ∧
        ∃ pre rest, s.data = pre ++ k ++ rest ∧ isJiraShape k ∧
          (∀ c, rest.head? = some c → c.isDigit = false) ∧
          (∀ j, j < pre.length → ¬ jiraStartsHere (s.data.drop j))) ∧
    detect_issue_context (some "abc-123") = noIssue := by
  constructor
  · intro s hsub hatl
    obtain ⟨pre, l, post, hdecomp, hshape⟩ := hsub
    have hne : ¬ s = "" := by
      intro he
      subst he
      obtain ⟨us, ds, hl, hus, hds, _, _⟩ := hshape
      have h0 : pre ++ l ++ post = ([] : List Char) := hdecomp.symm
      rcases List.append_eq_nil.mp h0 with ⟨h1, _⟩
      rcases List.append_eq_nil.mp h1 with ⟨_, h2⟩
      rw [h2] at hl
      cases us with
      | nil => cases hl
      | cons a b => cases hl
    have hsome : (jiraSearch s.data).isSome := by
      rw [hdecomp, List.append_assoc]
      exact jiraSearch_complete pre (l ++ post) ⟨l, post, rfl, hshape⟩
    obtain ⟨k, hk⟩ := Option.isSome_iff_exists.mp hsome
    obtain ⟨pre2, rest2, hd2, hshape2, hnd2, hnone2⟩ := jiraSearch_sound s.data k hk
    refine ⟨k, hk, ?_, pre2, rest2, hd2, hshape2, hnd2, ?_⟩
    · rw [detect_issue_context, if_neg hne]
      simp only [hatl, Bool.false_eq_true, if_false, hk]
    · intro j hj hstart
      have := jiraMatchAt_complete _ hstart
      rw [hnone2 j hj] at this
      cases this
  · decide

/-- Concrete witness for C5, at the spec's own example text. -/
theorem C5_witness :
    hasJiraKeySub "Please review PROJ-456".data ∧
    containsSub "atlassian.net".data "Please review PROJ-456".data = false ∧
    ∃ k : List Char,
      jiraSearch "Please review PROJ-456".data = some k ∧
      detect_issue_context (some "Please review PROJ-456") =
        ⟨true, some "jira", some (String.mk k), some "jira_key"⟩ ∧
      ∃ pre rest, "Please review PROJ-456".data = pre ++ k ++ rest ∧ isJiraShape k ∧
        (∀ c, rest.head? = some c → c.isDigit = false) ∧
        (∀ j, j < pre.length →
          ¬ jiraStartsHere ("Please review PROJ-456".data.drop j)) := by
  have hsub : hasJiraKeySub "Please review PROJ-456".data :=
    ⟨"Please review ".data, "PROJ-456".data, [], by decide,
      "PROJ".data, "456".data, by decide, by decide, by decide, by decide, by decide⟩
  exact ⟨hsub, by decide,
    C5_jira_key_detection.1 "Please review PROJ-456" hsub (by decide)⟩

/-! ### Claim theorems: the demo-run scenario -/

/-- C1 counterexample: in the demo scenario (`ticket = "ABC-1"`,
`user_prompt = "hello world"`) the persisted manifest's first step has
`input.issue_context.issue_type = none`, not `some "jira"`: the claim's
last conjunct fails on the code, because `run_workflow` computes the
issue context from `user_prompt or ticket_text`, and the user prompt
`"hello world"` contains no issue reference. -/
theorem C1_counterexample :
    demoRun.2 = Except.ok demoRunPath ∧
    ((fsRead demoRun.1 demoRunPath).map
      (fun m => (m.workflow, m.steps.map (fun s => s.input.issue_context.issue_type))))
      = some ("demo", [none]) ∧
    (none : Option String) ≠ some "jira" := by
  refine ⟨rfl, by decide, by decide⟩

/-- C1 (amended): the demo-scenario manifest has `workflow = "demo"`,
`steps[0].prompt_id = "ticket_understander"` and
`steps[0].input.user_prompt = "hello world"` as claimed, but
`steps[0].input.issue_context.issue_type` is null: the issue context is
derived from the user prompt (which contains no issue reference); the
ticket feeds it only when the user prompt is empty. -/
theorem C1_demo_manifest_amended :
    ((fsRead demoRun.1 demoRunPath).map
      (fun m => (m.workflow, m.steps.map
        (fun s => (s.prompt_id, s.input.user_prompt, s.input.issue_context.issue_type)))))
      = some ("demo", [("ticket_understander", "hello world", none)]) := by
  decide

end Aidev
